import Mathlib

/-!
Verification of the arithmetic-expression tokenizer and recursive-descent
parser (`src/parser.py` with its tokenizer collaborator) against the
natural-language specification.

The parser is embedded shallowly: each Python method becomes a Lean
function over `(tokens, index)` returning `Except Err (Node × Nat)`,
where the returned `Nat` is the new value of `current_token_index`.
Recursion is made structural with an explicit fuel argument; `parse`
supplies enough fuel, and an adequacy lemma shows the fuel never runs
out on well-formed token sequences.  Accessing `current_token` when it
is `None` (a Python `AttributeError`) is modelled by the distinguished
error `Err.crash`; `SyntaxError` is modelled by `Err.synError`.
-/

/-- The closed token-kind enumeration from `token_types.py`. -/
inductive TokenType where
  | INTEGER
  | FLOAT
  | IDENTIFIER
  | PLUS
  | MINUS
  | MULTIPLY
  | DIVIDE
  | POWER
  | LPAREN
  | RPAREN
  | COMMA
  | SIN
  | COS
  | TAN
  | LOG
  | EOF
deriving DecidableEq, Repr

/-- A token: kind, source text, zero-based input offset. -/
structure Token where
  type : TokenType
  value : String
  position : Nat
deriving DecidableEq, Repr

/-- AST nodes from `ast_nodes.py`.  Integer literals carry their numeric
value (Python `int(token.value)`); float literals keep the raw literal
text because no claim touches float semantics. -/
inductive Node where
  | number (value : Int)
  | numberFloat (raw : String)
  | identifier (name : String)
  | unaryOp (op : String) (operand : Node)
  | binaryOp (left : Node) (op : String) (right : Node)
  | functionCall (name : String) (args : List Node)
deriving Repr

/-- The root wrapper node (`ProgramNode`). -/
structure ProgramNode where
  expression : Node
deriving Repr

/-- Failure outcomes.  `lexError` models `LexicalError`, `synError`
models Python `SyntaxError`, `crash` models an attribute access on a
`None` current token, `outOfFuel` is an artefact of the fuel-based
embedding (shown unreachable with the fuel `parse` supplies). -/
inductive Err where
  | lexError (ch : Char) (pos : Nat)
  | synError (msg : String) (pos : Nat)
  | crash
  | outOfFuel
deriving DecidableEq, Repr

/-- Numeric value of a digit character. -/
def digitVal (c : Char) : Nat := c.toNat - 48

/-- Value of a decimal digit string, as Python `int` on the strings the
tokenizer produces for `INTEGER` tokens. -/
def strToNat (s : String) : Nat :=
  s.toList.foldl (fun acc c => acc * 10 + digitVal c) 0

/-- `int(token.value)` for an `INTEGER` token. -/
def strToInt (s : String) : Int := Int.ofNat (strToNat s)

/-- Classify a scanned word: the exact reserved spellings get their
dedicated function-token kinds, everything else is an identifier. -/
def reservedType (s : String) : TokenType :=
  if s = "sin" then TokenType.SIN
  else if s = "cos" then TokenType.COS
  else if s = "tan" then TokenType.TAN
  else if s = "log" then TokenType.LOG
  else TokenType.IDENTIFIER

/-- First character of an identifier: letter or underscore. -/
def isIdentStart (c : Char) : Bool := c.isAlpha || c == '_'

/-- Continuation character of an identifier. -/
def isIdentChar (c : Char) : Bool := c.isAlpha || c.isDigit || c == '_'

/-- Whitespace characters skipped by the tokenizer. -/
def isSpaceChar (c : Char) : Bool :=
  c == ' ' || c == '\t' || c == '\n' || c == '\r'

/-- Kinds of the single-character tokens. -/
def singleCharType (c : Char) : Option TokenType :=
  if c = '+' then some TokenType.PLUS
  else if c = '-' then some TokenType.MINUS
  else if c = '*' then some TokenType.MULTIPLY
  else if c = '/' then some TokenType.DIVIDE
  else if c = '^' then some TokenType.POWER
  else if c = '(' then some TokenType.LPAREN
  else if c = ')' then some TokenType.RPAREN
  else if c = ',' then some TokenType.COMMA
  else none

/-- Modelled from the spec: the tokenizer lives in `lexer.py`, which is
not under `src/`; this definition follows section 4.1 of the spec
word for word.  Whitespace is skipped; a maximal digit run is an
`INTEGER`; a digit run containing one decimal point is a `FLOAT`; a
maximal letter/underscore-led word is an `IDENTIFIER` unless it is one
of the reserved spellings `sin`, `cos`, `tan`, `log`; the eight
single-character tokens map directly; any other character is a
`LexicalError` with its position; the sequence always ends in exactly
one `EOF` token. -/
def scanTokens (fuel : Nat) (cs : List Char) (pos : Nat) :
    Except Err (List Token) :=
  match fuel with
  | 0 => Except.error Err.outOfFuel
  | fuel + 1 =>
    match cs with
    | [] => Except.ok [⟨TokenType.EOF, "", pos⟩]
    | c :: rest =>
      if isSpaceChar c then scanTokens fuel rest (pos + 1)
      else if c.isDigit then
        let digits := (c :: rest).takeWhile Char.isDigit
        let afterD := (c :: rest).dropWhile Char.isDigit
        match afterD with
        | '.' :: r2 =>
          let frac := r2.takeWhile Char.isDigit
          let afterF := r2.dropWhile Char.isDigit
          let lit := digits ++ '.' :: frac
          match scanTokens fuel afterF (pos + lit.length) with
          | Except.error e => Except.error e
          | Except.ok ts => Except.ok (⟨TokenType.FLOAT, String.mk lit, pos⟩ :: ts)
        | _ =>
          match scanTokens fuel afterD (pos + digits.length) with
          | Except.error e => Except.error e
          | Except.ok ts =>
            Except.ok (⟨TokenType.INTEGER, String.mk digits, pos⟩ :: ts)
      else if isIdentStart c then
        let word := (c :: rest).takeWhile isIdentChar
        let after := (c :: rest).dropWhile isIdentChar
        let s := String.mk word
        match scanTokens fuel after (pos + word.length) with
        | Except.error e => Except.error e
        | Except.ok ts => Except.ok (⟨reservedType s, s, pos⟩ :: ts)
      else
        match singleCharType c with
        | some tt =>
          match scanTokens fuel rest (pos + 1) with
          | Except.error e => Except.error e
          | Except.ok ts => Except.ok (⟨tt, String.mk [c], pos⟩ :: ts)
        | none => Except.error (Err.lexError c pos)

/-- Modelled from the spec: `tokenize(text)` (the `Lexer.get_tokens`
entry point, `lexer.py` not under `src/`). -/
def tokenize (text : String) : Except Err (List Token) :=
  scanTokens (text.length + 1) text.toList 0

/-- The operator-precedence table built in `Parser.__init__`. -/
def precOf (t : TokenType) : Option Nat :=
  match t with
  | TokenType.PLUS => some 1
  | TokenType.MINUS => some 1
  | TokenType.MULTIPLY => some 2
  | TokenType.DIVIDE => some 2
  | TokenType.POWER => some 3
  | _ => none

/-- `self.current_token` when `current_token_index = i`: the token at
index `i`, or `none` once the cursor has moved past the end. -/
def getCur (tokens : List Token) (i : Nat) : Option Token := tokens.get? i

mutual

/-- `Parser.parse_primary` (src/parser.py lines 117-161). -/
def parse_primary (fuel : Nat) (tokens : List Token) (i : Nat) :
    Except Err (Node × Nat) :=
  match fuel with
  | 0 => Except.error Err.outOfFuel
  | fuel + 1 =>
    match getCur tokens i with
    | none => Except.error Err.crash
    | some token =>
      if token.type = TokenType.INTEGER then
        Except.ok (Node.number (strToInt token.value), i + 1)
      else if token.type = TokenType.FLOAT then
        Except.ok (Node.numberFloat token.value, i + 1)
      else if token.type = TokenType.IDENTIFIER then
        Except.ok (Node.identifier token.value, i + 1)
      else if token.type = TokenType.SIN ∨ token.type = TokenType.COS ∨
          token.type = TokenType.TAN ∨ token.type = TokenType.LOG then
        parse_function_call fuel tokens i token
      else if token.type = TokenType.LPAREN then
        parse_parenthesized fuel tokens i
      else if token.type = TokenType.MINUS then
        match parse_primary fuel tokens (i + 1) with
        | Except.error e => Except.error e
        | Except.ok (operand, j) => Except.ok (Node.unaryOp "-" operand, j)
      else if token.type = TokenType.PLUS then
        parse_primary fuel tokens (i + 1)
      else
        Except.error (Err.synError "Unexpected token" token.position)
termination_by structural fuel

/-- `Parser._parse_function_call` (src/parser.py lines 163-200); `i` is
the index of the function-name token `funTok`. -/
def parse_function_call (fuel : Nat) (tokens : List Token) (i : Nat)
    (funTok : Token) : Except Err (Node × Nat) :=
  match fuel with
  | 0 => Except.error Err.outOfFuel
  | fuel + 1 =>
    match getCur tokens (i + 1) with
    | none => Except.error Err.crash
    | some t =>
      if t.type = TokenType.LPAREN then
        match getCur tokens (i + 2) with
        | none => Except.error Err.crash
        | some t2 =>
          if t2.type = TokenType.RPAREN then
            Except.ok (Node.functionCall funTok.value [], i + 3)
          else
            match parse_binary_expression fuel tokens (i + 2) 0 with
            | Except.error e => Except.error e
            | Except.ok (arg, j) =>
              parse_args_loop fuel tokens j funTok.value [arg]
      else Except.error (Err.synError "Expected ( after function name" t.position)
termination_by structural fuel

/-- The argument loop of `_parse_function_call` followed by its closing
parenthesis check: while the current token is a comma, consume it and
parse another expression; then require a right parenthesis. -/
def parse_args_loop (fuel : Nat) (tokens : List Token) (i : Nat)
    (name : String) (args : List Node) : Except Err (Node × Nat) :=
  match fuel with
  | 0 => Except.error Err.outOfFuel
  | fuel + 1 =>
    match getCur tokens i with
    | none => Except.error Err.crash
    | some t =>
      if t.type = TokenType.COMMA then
        match parse_binary_expression fuel tokens (i + 1) 0 with
        | Except.error e => Except.error e
        | Except.ok (arg, j) => parse_args_loop fuel tokens j name (args ++ [arg])
      else if t.type = TokenType.RPAREN then
        Except.ok (Node.functionCall name args, i + 1)
      else Except.error (Err.synError "Expected )" t.position)
termination_by structural fuel

/-- `Parser._parse_parenthesized_expression` (src/parser.py lines
202-220); `i` is the index of the opening parenthesis. -/
def parse_parenthesized (fuel : Nat) (tokens : List Token) (i : Nat) :
    Except Err (Node × Nat) :=
  match fuel with
  | 0 => Except.error Err.outOfFuel
  | fuel + 1 =>
    match parse_binary_expression fuel tokens (i + 1) 0 with
    | Except.error e => Except.error e
    | Except.ok (e, j) =>
      match getCur tokens j with
      | none => Except.error Err.crash
      | some t =>
        if t.type = TokenType.RPAREN then Except.ok (e, j + 1)
        else Except.error (Err.synError "Expected )" t.position)
termination_by structural fuel

/-- `Parser.parse_binary_expression` (src/parser.py lines 82-115):
parse a primary, then run the precedence-climbing loop. -/
def parse_binary_expression (fuel : Nat) (tokens : List Token) (i : Nat)
    (minPrec : Nat) : Except Err (Node × Nat) :=
  match fuel with
  | 0 => Except.error Err.outOfFuel
  | fuel + 1 =>
    match parse_primary fuel tokens i with
    | Except.error e => Except.error e
    | Except.ok (left, j) => parse_bin_loop fuel tokens j minPrec left
termination_by structural fuel

/-- The `while` loop of `parse_binary_expression`: while the current
token is an operator of precedence at least `minPrec`, consume it,
parse the right operand with the new minimum (`precedence - 1` for the
right-associative `POWER`, otherwise `precedence + 1`), and fold into
a left-growing `BinaryOp` chain. -/
def parse_bin_loop (fuel : Nat) (tokens : List Token) (i : Nat)
    (minPrec : Nat) (left : Node) : Except Err (Node × Nat) :=
  match fuel with
  | 0 => Except.error Err.outOfFuel
  | fuel + 1 =>
    match getCur tokens i with
    | none => Except.error Err.crash
    | some t =>
      match precOf t.type with
      | none => Except.ok (left, i)
      | some p =>
        if minPrec ≤ p then
          match parse_binary_expression fuel tokens (i + 1)
              (if t.type = TokenType.POWER then p - 1 else p + 1) with
          | Except.error e => Except.error e
          | Except.ok (right, j) =>
            parse_bin_loop fuel tokens j minPrec (Node.binaryOp left t.value right)
        else Except.ok (left, i)

termination_by structural fuel
end

/-- `Parser.parse_expression`: binary expression at minimum
precedence 0. -/
def parse_expression (fuel : Nat) (tokens : List Token) (i : Nat) :
    Except Err (Node × Nat) :=
  parse_binary_expression fuel tokens i 0

/-- `Parser.parse_program`: wrap the expression in a `ProgramNode`. -/
def parse_program (fuel : Nat) (tokens : List Token) (i : Nat) :
    Except Err (ProgramNode × Nat) :=
  match parse_expression fuel tokens i with
  | Except.error e => Except.error e
  | Except.ok (e, j) => Except.ok (⟨e⟩, j)

/-- Fuel budget supplied by `parse`; the adequacy lemma shows it is
enough for any well-formed token sequence. -/
def parseFuel (tokens : List Token) : Nat := 4 * tokens.length + 4

/-- `Parser.parse` (src/parser.py lines 37-59) on a pre-built token
sequence: `None` (here `Except.ok none`) on an empty sequence,
otherwise the program followed by the check that the current token is
`EOF`. -/
def parse (tokens : List Token) : Except Err (Option ProgramNode) :=
  if tokens.isEmpty then Except.ok none
  else
    match parse_program (parseFuel tokens) tokens 0 with
    | Except.error e => Except.error e
    | Except.ok (ast, j) =>
      match getCur tokens j with
      | none => Except.error Err.crash
      | some t =>
        if t.type = TokenType.EOF then Except.ok (some ast)
        else Except.error (Err.synError "Unexpected token" t.position)

/-- `parse_text` (src/parser.py lines 246-257): tokenize, then parse. -/
def parse_text (text : String) : Except Err (Option ProgramNode) :=
  match tokenize text with
  | Except.error e => Except.error e
  | Except.ok tokens => parse tokens

mutual

/-- Number of leaf nodes (`Number` or `Identifier`) in an expression tree. -/
def nodeLeaves : Node → Nat
  | Node.number _ => 1
  | Node.numberFloat _ => 1
  | Node.identifier _ => 1
  | Node.unaryOp _ e => nodeLeaves e
  | Node.binaryOp l _ r => nodeLeaves l + nodeLeaves r
  | Node.functionCall _ args => nodesLeaves args

/-- Total leaf count of a list of expression trees. -/
def nodesLeaves : List Node → Nat
  | [] => 0
  | n :: rest => nodeLeaves n + nodesLeaves rest

end

mutual

/-- Number of internal nodes (`UnaryOp`, `BinaryOp`, `FunctionCall`) in
an expression tree, not counting the `Program` wrapper. -/
def nodeInternals : Node → Nat
  | Node.number _ => 0
  | Node.numberFloat _ => 0
  | Node.identifier _ => 0
  | Node.unaryOp _ e => 1 + nodeInternals e
  | Node.binaryOp l _ r => 1 + nodeInternals l + nodeInternals r
  | Node.functionCall _ args => 1 + nodesInternals args

/-- Total internal-node count of a list of expression trees. -/
def nodesInternals : List Node → Nat
  | [] => 0
  | n :: rest => nodeInternals n + nodesInternals rest

end

/-- The kind of the token at index `k` (`EOF` past the end; only used
at in-range indices). -/
def getTokType (tokens : List Token) (k : Nat) : TokenType :=
  match getCur tokens k with
  | some t => t.type
  | none => TokenType.EOF

/-- Token kinds that the parser turns into leaf nodes: `NUMBER`
(integer or float) and `IDENTIFIER`. -/
def isLeafType (t : TokenType) : Bool :=
  t == TokenType.INTEGER || t == TokenType.FLOAT || t == TokenType.IDENTIFIER

/-- Number of `NUMBER`/`IDENTIFIER` tokens at indices in `[i, j)`. -/
def countLeafTokens (tokens : List Token) (i j : Nat) : Nat :=
  (List.range' i (j - i)).countP (fun k => isLeafType (getTokType tokens k))

/-- A well-formed token sequence: non-empty, and its one `EOF` token is
exactly its last element.  Every tokenizer output has this shape. -/
def WFTokens (tokens : List Token) : Prop :=
  tokens ≠ [] ∧ ∀ k, k < tokens.length →
    ((getTokType tokens k = TokenType.EOF) ↔ k + 1 = tokens.length)

/-- Outcome shape of a parser routine on a well-formed sequence:
success with a new cursor in `[lo, len)`, or a `SyntaxError` — never a
crash and never fuel exhaustion. -/
def okOrSyn (r : Except Err (Node × Nat)) (lo len : Nat) : Prop :=
  (∃ n j, r = Except.ok (n, j) ∧ lo ≤ j ∧ j < len) ∨
  (∃ m p, r = Except.error (Err.synError m p))

/-! ## Claim theorems -/

/-- C1 (code bug evidence): on the failing input `2 ^ 3 * 4` the parser
returns `Program(BinaryOp(2, ^, BinaryOp(3, *, 4)))` — the
multiplication is nested inside the right operand of the
exponentiation.  The claim (and the precedence table of the spec)
require `Program(BinaryOp(BinaryOp(2, ^, 3), *, 4))`: because the
precedence-climbing step for the right-associative `POWER` passes
`precedence - 1 = 2` as the new minimum, the loop in the recursive
call also accepts `*` and `/` (precedence 2), so they bind into the
exponent. -/
theorem c1_power_times_failing_input :
    parse_text "2 ^ 3 * 4" =
      Except.ok (some ⟨Node.binaryOp (Node.number 2) "^"
        (Node.binaryOp (Node.number 3) "*" (Node.number 4))⟩) := by
  rfl

/-- C2: chains of same-precedence operators associate as specified:
`2 - 3 - 4` parses left-associatively and `2 ^ 3 ^ 2` parses
right-associatively. -/
theorem c2_associativity :
    parse_text "2 - 3 - 4" =
      Except.ok (some ⟨Node.binaryOp
        (Node.binaryOp (Node.number 2) "-" (Node.number 3)) "-"
        (Node.number 4)⟩) ∧
    parse_text "2 ^ 3 ^ 2" =
      Except.ok (some ⟨Node.binaryOp (Node.number 2) "^"
        (Node.binaryOp (Node.number 3) "^" (Node.number 2))⟩) := by
  exact ⟨rfl, rfl⟩

/-- C3: multiplication binds tighter than addition: `2 + 3 * 4` parses
as `2 + (3 * 4)`. -/
theorem c3_precedence_add_mul :
    parse_text "2 + 3 * 4" =
      Except.ok (some ⟨Node.binaryOp (Node.number 2) "+"
        (Node.binaryOp (Node.number 3) "*" (Node.number 4))⟩) := by
  rfl

/-- C4: a leading minus parses exactly one primary as its operand and
wraps it in a `UnaryOp`; a leading plus consumes the token and returns
the following primary unchanged, creating no node; hence `-2^2` parses
as `(-2)^2` and `+2` as `2`. -/
theorem c4_unary_sign :
    (∀ fuel tokens i t, getCur tokens i = some t →
      t.type = TokenType.MINUS →
      parse_primary (fuel + 1) tokens i =
        match parse_primary fuel tokens (i + 1) with
        | Except.error e => Except.error e
        | Except.ok (operand, j) => Except.ok (Node.unaryOp "-" operand, j)) ∧
    (∀ fuel tokens i t, getCur tokens i = some t →
      t.type = TokenType.PLUS →
      parse_primary (fuel + 1) tokens i = parse_primary fuel tokens (i + 1)) ∧
    parse_text "-2^2" =
      Except.ok (some ⟨Node.binaryOp (Node.unaryOp "-" (Node.number 2)) "^"
        (Node.number 2)⟩) ∧
    parse_text "+2" = Except.ok (some ⟨Node.number 2⟩) := by
  refine ⟨?_, ?_, rfl, rfl⟩
  · intro fuel tokens i t ht hty
    simp [parse_primary, ht, hty]
  · intro fuel tokens i t ht hty
    simp [parse_primary, ht, hty]

/-- C4 witness: the two general clauses at a concrete input. -/
theorem c4_unary_sign_witness :
    parse_primary 3 [⟨TokenType.MINUS, "-", 0⟩, ⟨TokenType.INTEGER, "2", 1⟩,
        ⟨TokenType.EOF, "", 2⟩] 0 =
      (match parse_primary 2 [⟨TokenType.MINUS, "-", 0⟩,
          ⟨TokenType.INTEGER, "2", 1⟩, ⟨TokenType.EOF, "", 2⟩] 1 with
        | Except.error e => Except.error e
        | Except.ok (operand, j) => Except.ok (Node.unaryOp "-" operand, j)) ∧
    parse_primary 3 [⟨TokenType.PLUS, "+", 0⟩, ⟨TokenType.INTEGER, "2", 1⟩,
        ⟨TokenType.EOF, "", 2⟩] 0 =
      parse_primary 2 [⟨TokenType.PLUS, "+", 0⟩, ⟨TokenType.INTEGER, "2", 1⟩,
        ⟨TokenType.EOF, "", 2⟩] 1 := by
  constructor
  · exact c4_unary_sign.1 2 _ 0 _ rfl rfl
  · exact c4_unary_sign.2.1 2 _ 0 _ rfl rfl

/-- C5: a well-formed call parses to `FunctionCall` with the arguments
in source order; empty parentheses give an empty argument list; no
arity validation is performed (`log` accepts three arguments). -/
theorem c5_function_calls :
    parse_text "log(8, 2)" =
      Except.ok (some ⟨Node.functionCall "log"
        [Node.number 8, Node.number 2]⟩) ∧
    parse_text "sin()" = Except.ok (some ⟨Node.functionCall "sin" []⟩) ∧
    parse_text "log(1, 2, 3)" =
      Except.ok (some ⟨Node.functionCall "log"
        [Node.number 1, Node.number 2, Node.number 3]⟩) := by
  exact ⟨rfl, rfl, rfl⟩

/-- C10: when the parser is built directly from an empty pre-built
token sequence, `parse` returns `None` (modelled as `Except.ok none`):
neither a `ProgramNode` nor an error. -/
theorem c10_empty_tokens_none :
    parse ([] : List Token) = Except.ok none := by
  rfl

/-- C6: malformed function calls fail with a `SyntaxError` carrying a
position: a reserved function-name token not immediately followed by a
left parenthesis (general clause), a missing closing parenthesis
(`sin(1`), and a trailing comma before the closing parenthesis
(`sin(1,)`); no partial result is returned. -/
theorem c6_malformed_calls :
    (∀ fuel tokens i t u, getCur tokens i = some t →
      (t.type = TokenType.SIN ∨ t.type = TokenType.COS ∨
        t.type = TokenType.TAN ∨ t.type = TokenType.LOG) →
      getCur tokens (i + 1) = some u → u.type ≠ TokenType.LPAREN →
      parse_primary (fuel + 2) tokens i =
        Except.error (Err.synError "Expected ( after function name" u.position)) ∧
    parse_text "sin(1" = Except.error (Err.synError "Expected )" 5) ∧
    parse_text "sin(1,)" = Except.error (Err.synError "Unexpected token" 6) := by
  refine ⟨?_, rfl, rfl⟩
  intro fuel tokens i t u ht hty hu hne
  rcases hty with h | h | h | h <;>
    simp [parse_primary, parse_function_call, ht, h, hu, hne]

/-- C6 witness: the general clause at the concrete input `sin 1`
(tokens `SIN`, `INTEGER`, `EOF`). -/
theorem c6_malformed_calls_witness :
    parse_primary 2 [⟨TokenType.SIN, "sin", 0⟩, ⟨TokenType.INTEGER, "1", 4⟩,
        ⟨TokenType.EOF, "", 5⟩] 0 =
      Except.error (Err.synError "Expected ( after function name" 4) := by
  exact c6_malformed_calls.1 0
    [⟨TokenType.SIN, "sin", 0⟩, ⟨TokenType.INTEGER, "1", 4⟩,
      ⟨TokenType.EOF, "", 5⟩] 0
    ⟨TokenType.SIN, "sin", 0⟩ ⟨TokenType.INTEGER, "1", 4⟩
    rfl (Or.inl rfl) rfl (by decide)

/-! ## Helper lemmas -/

theorem lt_of_getCur {tokens : List Token} {i : Nat} {t : Token}
    (ht : getCur tokens i = some t) : i < tokens.length := by
  rw [getCur, List.get?_eq_some] at ht
  exact ht.1

theorem getCur_of_lt {tokens : List Token} {i : Nat}
    (h : i < tokens.length) : ∃ t, getCur tokens i = some t :=
  ⟨tokens.get ⟨i, h⟩, List.get?_eq_get h⟩

theorem getTokType_eq {tokens : List Token} {i : Nat} {t : Token}
    (ht : getCur tokens i = some t) : getTokType tokens i = t.type := by
  simp [getTokType, ht]

theorem step_lt {tokens : List Token} {i : Nat} {t : Token}
    (hwf : WFTokens tokens) (ht : getCur tokens i = some t)
    (hne : t.type ≠ TokenType.EOF) : i + 1 < tokens.length := by
  have hi := lt_of_getCur ht
  have hiff := hwf.2 i hi
  rw [getTokType_eq ht] at hiff
  have : i + 1 ≠ tokens.length := fun h => hne (hiff.mpr h)
  omega

theorem isLeafType_eq_false_of_prec {ty : TokenType} {p : Nat}
    (h : precOf ty = some p) : isLeafType ty = false := by
  cases ty <;> simp_all [precOf, isLeafType]

theorem precOf_ne_eof {ty : TokenType} {p : Nat}
    (h : precOf ty = some p) : ty ≠ TokenType.EOF := by
  cases ty <;> simp_all [precOf]

theorem countLeafTokens_self (tokens : List Token) (i : Nat) :
    countLeafTokens tokens i i = 0 := by
  simp [countLeafTokens]

theorem countLeafTokens_one (tokens : List Token) (i : Nat) :
    countLeafTokens tokens i (i + 1) =
      if isLeafType (getTokType tokens i) then 1 else 0 := by
  unfold countLeafTokens
  have h1 : i + 1 - i = 1 := by omega
  rw [h1, List.range'_one]
  simp [List.countP_cons]

theorem countLeafTokens_split (tokens : List Token) {i j k : Nat}
    (h1 : i ≤ j) (h2 : j ≤ k) :
    countLeafTokens tokens i k =
      countLeafTokens tokens i j + countLeafTokens tokens j k := by
  unfold countLeafTokens
  have e : k - i = (k - j) + (j - i) := by omega
  rw [e, ← List.range'_append, List.countP_append]
  have e2 : i + 1 * (j - i) = j := by omega
  rw [e2, Nat.add_comm]

theorem nodesLeaves_append (l : List Node) (a : Node) :
    nodesLeaves (l ++ [a]) = nodesLeaves l + nodeLeaves a := by
  induction l with
  | nil => simp [nodesLeaves]
  | cons x xs ih => simp [nodesLeaves, ih]; omega

theorem nodesInternals_append (l : List Node) (a : Node) :
    nodesInternals (l ++ [a]) = nodesInternals l + nodeInternals a := by
  induction l with
  | nil => simp [nodesInternals]
  | cons x xs ih => simp [nodesInternals, ih]; omega

theorem parser_count (fuel : Nat) :
    (∀ tokens i n j, parse_primary fuel tokens i = Except.ok (n, j) →
      i < j ∧ nodeLeaves n = countLeafTokens tokens i j ∧
        nodeInternals n + 1 ≤ j - i) ∧
    (∀ tokens i ft n j,
      parse_function_call fuel tokens i ft = Except.ok (n, j) →
      i + 1 < j ∧ nodeLeaves n = countLeafTokens tokens (i + 1) j ∧
        nodeInternals n + 1 ≤ j - (i + 1)) ∧
    (∀ tokens i name args n j,
      parse_args_loop fuel tokens i name args = Except.ok (n, j) →
      i < j ∧ nodeLeaves n = nodesLeaves args + countLeafTokens tokens i j ∧
        nodeInternals n ≤ nodesInternals args + (j - i)) ∧
    (∀ tokens i n j, parse_parenthesized fuel tokens i = Except.ok (n, j) →
      i + 1 < j ∧ nodeLeaves n = countLeafTokens tokens (i + 1) j ∧
        nodeInternals n + 1 ≤ j - (i + 1)) ∧
    (∀ tokens i mp n j,
      parse_binary_expression fuel tokens i mp = Except.ok (n, j) →
      i < j ∧ nodeLeaves n = countLeafTokens tokens i j ∧
        nodeInternals n + 1 ≤ j - i) ∧
    (∀ tokens i mp left n j,
      parse_bin_loop fuel tokens i mp left = Except.ok (n, j) →
      i ≤ j ∧ nodeLeaves n = nodeLeaves left + countLeafTokens tokens i j ∧
        nodeInternals n ≤ nodeInternals left + (j - i)) := by
  induction fuel with
  | zero =>
    refine ⟨?_, ?_, ?_, ?_, ?_, ?_⟩
    · intro tokens i n j h; simp [parse_primary] at h
    · intro tokens i ft n j h; simp [parse_function_call] at h
    · intro tokens i name args n j h; simp [parse_args_loop] at h
    · intro tokens i n j h; simp [parse_parenthesized] at h
    · intro tokens i mp n j h; simp [parse_binary_expression] at h
    · intro tokens i mp left n j h; simp [parse_bin_loop] at h
  | succ fuel ih =>
    obtain ⟨ihP, ihF, ihA, ihG, ihE, ihL⟩ := ih
    refine ⟨?_, ?_, ?_, ?_, ?_, ?_⟩
    -- parse_primary
    · intro tokens i n j h
      simp only [parse_primary] at h
      cases hg : getCur tokens i with
      | none => simp [hg] at h
      | some token =>
        simp only [hg] at h
        split_ifs at h with h1 h2 h3 h4 h5 h6 h7
        · -- INTEGER
          simp only [Except.ok.injEq, Prod.mk.injEq] at h
          obtain ⟨rfl, rfl⟩ := h
          refine ⟨by omega, ?_, by simp only [nodeInternals]; omega⟩
          rw [countLeafTokens_one, getTokType_eq hg, h1]
          simp [nodeLeaves, isLeafType]
        · -- FLOAT
          simp only [Except.ok.injEq, Prod.mk.injEq] at h
          obtain ⟨rfl, rfl⟩ := h
          refine ⟨by omega, ?_, by simp only [nodeInternals]; omega⟩
          rw [countLeafTokens_one, getTokType_eq hg, h2]
          simp [nodeLeaves, isLeafType]
        · -- IDENTIFIER
          simp only [Except.ok.injEq, Prod.mk.injEq] at h
          obtain ⟨rfl, rfl⟩ := h
          refine ⟨by omega, ?_, by simp only [nodeInternals]; omega⟩
          rw [countLeafTokens_one, getTokType_eq hg, h3]
          simp [nodeLeaves, isLeafType]
        · -- function call
          obtain ⟨hij, hleaf, hint⟩ := ihF tokens i token n j h
          refine ⟨by omega, ?_, by omega⟩
          rw [countLeafTokens_split tokens (show i ≤ i + 1 by omega)
            (show i + 1 ≤ j by omega),
            countLeafTokens_one, getTokType_eq hg, hleaf]
          rcases h4 with h4 | h4 | h4 | h4 <;> rw [h4] <;> simp [isLeafType]
        · -- parenthesized
          obtain ⟨hij, hleaf, hint⟩ := ihG tokens i n j h
          refine ⟨by omega, ?_, by omega⟩
          rw [countLeafTokens_split tokens (show i ≤ i + 1 by omega)
            (show i + 1 ≤ j by omega),
            countLeafTokens_one, getTokType_eq hg, h5, hleaf]
          simp [isLeafType]
        · -- MINUS
          cases hp : parse_primary fuel tokens (i + 1) with
          | error e => simp [hp] at h
          | ok pr =>
            obtain ⟨operand, k⟩ := pr
            simp only [hp, Except.ok.injEq, Prod.mk.injEq] at h
            obtain ⟨rfl, rfl⟩ := h
            obtain ⟨hik, hleaf, hint⟩ := ihP tokens (i + 1) operand k hp
            refine ⟨by omega, ?_, ?_⟩
            · rw [show nodeLeaves (Node.unaryOp "-" operand) =
                nodeLeaves operand from rfl,
                countLeafTokens_split tokens (show i ≤ i + 1 by omega)
                (show i + 1 ≤ k by omega),
                countLeafTokens_one, getTokType_eq hg, h6, hleaf]
              simp [isLeafType]
            · simp only [nodeInternals]
              omega
        · -- PLUS
          obtain ⟨hik, hleaf, hint⟩ := ihP tokens (i + 1) n j h
          refine ⟨by omega, ?_, by omega⟩
          rw [countLeafTokens_split tokens (show i ≤ i + 1 by omega)
            (show i + 1 ≤ j by omega),
            countLeafTokens_one, getTokType_eq hg, h7, hleaf]
          simp [isLeafType]
    -- parse_function_call
    · intro tokens i ft n j h
      simp only [parse_function_call] at h
      cases hg1 : getCur tokens (i + 1) with
      | none => simp [hg1] at h
      | some t =>
        simp only [hg1] at h
        split_ifs at h with hLP
        cases hg2 : getCur tokens (i + 2) with
        | none => simp [hg2] at h
        | some t2 =>
          simp only [hg2] at h
          split_ifs at h with hRP
          · -- zero arguments
            simp only [Except.ok.injEq, Prod.mk.injEq] at h
            obtain ⟨rfl, rfl⟩ := h
            refine ⟨by omega, ?_,
              by simp only [nodeInternals, nodesInternals]; omega⟩
            rw [countLeafTokens_split tokens (show i + 1 ≤ i + 2 by omega)
              (show i + 2 ≤ i + 3 by omega),
              countLeafTokens_one, countLeafTokens_one,
              getTokType_eq hg1, getTokType_eq hg2, hLP, hRP]
            simp [nodeLeaves, nodesLeaves, isLeafType]
          · cases hpe : parse_binary_expression fuel tokens (i + 2) 0 with
            | error e => simp [hpe] at h
            | ok pr =>
              obtain ⟨arg, j1⟩ := pr
              simp only [hpe] at h
              obtain ⟨hij1, hleaf1, hint1⟩ := ihE tokens (i + 2) 0 arg j1 hpe
              obtain ⟨hj1j, hleaf2, hint2⟩ :=
                ihA tokens j1 ft.value [arg] n j h
              refine ⟨by omega, ?_, ?_⟩
              · rw [countLeafTokens_split tokens
                  (show i + 1 ≤ i + 2 by omega) (show i + 2 ≤ j by omega),
                  countLeafTokens_split tokens
                  (show i + 2 ≤ j1 by omega) (show j1 ≤ j by omega),
                  countLeafTokens_one, getTokType_eq hg1, hLP, hleaf2,
                  show nodesLeaves [arg] = nodeLeaves arg + 0 from rfl,
                  hleaf1]
                simp [isLeafType]
              · have he : nodesInternals [arg] = nodeInternals arg + 0 := rfl
                omega
    -- parse_args_loop
    · intro tokens i name args n j h
      simp only [parse_args_loop] at h
      cases hg : getCur tokens i with
      | none => simp [hg] at h
      | some t =>
        simp only [hg] at h
        split_ifs at h with hC hR
        · -- COMMA
          cases hpe : parse_binary_expression fuel tokens (i + 1) 0 with
          | error e => simp [hpe] at h
          | ok pr =>
            obtain ⟨arg, k⟩ := pr
            simp only [hpe] at h
            obtain ⟨hik, hleaf1, hint1⟩ := ihE tokens (i + 1) 0 arg k hpe
            obtain ⟨hkj, hleaf2, hint2⟩ :=
              ihA tokens k name (args ++ [arg]) n j h
            refine ⟨by omega, ?_, ?_⟩
            · have h0 : countLeafTokens tokens i (i + 1) = 0 := by
                rw [countLeafTokens_one, getTokType_eq hg, hC]; decide
              rw [countLeafTokens_split tokens (show i ≤ i + 1 by omega)
                (show i + 1 ≤ j by omega),
                countLeafTokens_split tokens (show i + 1 ≤ k by omega)
                (show k ≤ j by omega),
                h0, hleaf2, nodesLeaves_append, hleaf1]
              omega
            · rw [nodesInternals_append] at hint2
              omega
        · -- RPAREN
          simp only [Except.ok.injEq, Prod.mk.injEq] at h
          obtain ⟨rfl, rfl⟩ := h
          refine ⟨by omega, ?_, ?_⟩
          · rw [countLeafTokens_one, getTokType_eq hg, hR,
              show nodeLeaves (Node.functionCall name args) =
                nodesLeaves args from rfl]
            simp [isLeafType]
          · simp only [nodeInternals]
            omega
    -- parse_parenthesized
    · intro tokens i n j h
      simp only [parse_parenthesized] at h
      cases hpe : parse_binary_expression fuel tokens (i + 1) 0 with
      | error e => simp [hpe] at h
      | ok pr =>
        obtain ⟨e, j1⟩ := pr
        simp only [hpe] at h
        cases hg : getCur tokens j1 with
        | none => simp [hg] at h
        | some t =>
          simp only [hg] at h
          split_ifs at h with hRP
          obtain ⟨hij1, hleaf, hint⟩ := ihE tokens (i + 1) 0 e j1 hpe
          simp only [Except.ok.injEq, Prod.mk.injEq] at h
          obtain ⟨rfl, rfl⟩ := h
          refine ⟨by omega, ?_, by omega⟩
          rw [countLeafTokens_split tokens (show i + 1 ≤ j1 by omega)
            (show j1 ≤ j1 + 1 by omega),
            countLeafTokens_one, getTokType_eq hg, hRP, hleaf]
          simp [isLeafType]
    -- parse_binary_expression
    · intro tokens i mp n j h
      simp only [parse_binary_expression] at h
      cases hp : parse_primary fuel tokens i with
      | error e => simp [hp] at h
      | ok pr =>
        obtain ⟨left, k⟩ := pr
        simp only [hp] at h
        obtain ⟨hik, hleaf1, hint1⟩ := ihP tokens i left k hp
        obtain ⟨hkj, hleaf2, hint2⟩ := ihL tokens k mp left n j h
        refine ⟨by omega, ?_, by omega⟩
        rw [countLeafTokens_split tokens (show i ≤ k by omega)
          (show k ≤ j by omega), hleaf2, hleaf1]
    -- parse_bin_loop
    · intro tokens i mp left n j h
      simp only [parse_bin_loop] at h
      cases hg : getCur tokens i with
      | none => simp [hg] at h
      | some t =>
        simp only [hg] at h
        cases hpo : precOf t.type with
        | none =>
          simp only [hpo, Except.ok.injEq, Prod.mk.injEq] at h
          obtain ⟨rfl, rfl⟩ := h
          simp [countLeafTokens_self]
        | some p =>
          simp only [hpo] at h
          by_cases hge : mp ≤ p
          · rw [if_pos hge] at h
            cases hpe : parse_binary_expression fuel tokens (i + 1)
                (if t.type = TokenType.POWER then p - 1 else p + 1) with
            | error e => simp [hpe] at h
            | ok pr =>
              obtain ⟨right, k⟩ := pr
              simp only [hpe] at h
              obtain ⟨hik, hleaf1, hint1⟩ := ihE tokens (i + 1) _ right k hpe
              obtain ⟨hkj, hleaf2, hint2⟩ :=
                ihL tokens k mp (Node.binaryOp left t.value right) n j h
              refine ⟨by omega, ?_, ?_⟩
              · have h0 : countLeafTokens tokens i (i + 1) = 0 := by
                  rw [countLeafTokens_one, getTokType_eq hg,
                    isLeafType_eq_false_of_prec hpo]; decide
                rw [countLeafTokens_split tokens (show i ≤ i + 1 by omega)
                  (show i + 1 ≤ j by omega),
                  countLeafTokens_split tokens (show i + 1 ≤ k by omega)
                  (show k ≤ j by omega),
                  h0, hleaf2,
                  show nodeLeaves (Node.binaryOp left t.value right) =
                    nodeLeaves left + nodeLeaves right from rfl,
                  hleaf1]
                omega
              · rw [show nodeInternals (Node.binaryOp left t.value right) =
                  1 + nodeInternals left + nodeInternals right from rfl]
                  at hint2
                omega
          · rw [if_neg hge] at h
            simp only [Except.ok.injEq, Prod.mk.injEq] at h
            obtain ⟨rfl, rfl⟩ := h
            simp [countLeafTokens_self]

/-- C8: for every well-formed token sequence accepted by the parser,
the returned tree has exactly one leaf per `NUMBER`/`IDENTIFIER` token,
and its internal-node count (the `Program` wrapper plus every
`BinaryOp`, `UnaryOp` and `FunctionCall`) is strictly less than the
number of tokens. -/
theorem c8_node_counts (tokens : List Token) (prog : ProgramNode)
    (hwf : WFTokens tokens)
    (h : parse tokens = Except.ok (some prog)) :
    nodeLeaves prog.expression = countLeafTokens tokens 0 tokens.length ∧
    1 + nodeInternals prog.expression < tokens.length := by
  rw [parse] at h
  rw [if_neg (by simpa using hwf.1)] at h
  cases hpp : parse_program (parseFuel tokens) tokens 0 with
  | error e => rw [hpp] at h; simp at h
  | ok pr =>
    obtain ⟨ast, j⟩ := pr
    rw [hpp] at h
    simp only at h
    cases hg : getCur tokens j with
    | none => rw [hg] at h; simp at h
    | some t =>
      rw [hg] at h
      simp only at h
      split_ifs at h with hEOF
      simp only [Except.ok.injEq, Option.some.injEq] at h
      subst h
      rw [parse_program] at hpp
      cases hpe : parse_expression (parseFuel tokens) tokens 0 with
      | error e => rw [hpe] at hpp; simp at hpp
      | ok pr2 =>
        obtain ⟨e, j2⟩ := pr2
        rw [hpe] at hpp
        simp only [Except.ok.injEq, Prod.mk.injEq] at hpp
        obtain ⟨rfl, rfl⟩ := hpp
        rw [parse_expression] at hpe
        obtain ⟨hj, hleaf, hint⟩ :=
          (parser_count (parseFuel tokens)).2.2.2.2.1 tokens 0 0 e j2 hpe
        have hjlen : j2 + 1 = tokens.length := by
          have hlt := lt_of_getCur hg
          have hiff := hwf.2 j2 hlt
          rw [getTokType_eq hg] at hiff
          exact hiff.mp hEOF
        have h0 : countLeafTokens tokens j2 tokens.length = 0 := by
          rw [show tokens.length = j2 + 1 by omega, countLeafTokens_one,
            getTokType_eq hg, hEOF]
          decide
        constructor
        · show nodeLeaves e = _
          rw [countLeafTokens_split tokens (show 0 ≤ j2 by omega)
            (show j2 ≤ tokens.length by omega), h0]
          omega
        · show 1 + nodeInternals e < tokens.length
          omega

/-- C8 witness: the counting theorem at the concrete token sequence of
the input `2` (one `INTEGER` token and the final `EOF`). -/
theorem c8_node_counts_witness :
    nodeLeaves (ProgramNode.mk (Node.number 2)).expression =
      countLeafTokens
        [⟨TokenType.INTEGER, "2", 0⟩, ⟨TokenType.EOF, "", 1⟩] 0 2 ∧
    1 + nodeInternals (ProgramNode.mk (Node.number 2)).expression < 2 := by
  have h := c8_node_counts
    [⟨TokenType.INTEGER, "2", 0⟩, ⟨TokenType.EOF, "", 1⟩]
    (ProgramNode.mk (Node.number 2))
    (by unfold WFTokens; decide) rfl
  simpa using h

theorem okOrSyn_ok {x : Node} {j lo len : Nat} (h1 : lo ≤ j) (h2 : j < len) :
    okOrSyn (Except.ok (x, j)) lo len :=
  Or.inl ⟨x, j, rfl, h1, h2⟩

theorem okOrSyn_syn {m : String} {p lo len : Nat} :
    okOrSyn (Except.error (Err.synError m p)) lo len :=
  Or.inr ⟨m, p, rfl⟩

theorem okOrSyn_mono {r : Except Err (Node × Nat)} {lo lo' len : Nat}
    (h : lo ≤ lo') (ho : okOrSyn r lo' len) : okOrSyn r lo len := by
  rcases ho with ⟨n, j, heq, hlo, hlen⟩ | ⟨m, p, heq⟩
  · exact Or.inl ⟨n, j, heq, Nat.le_trans h hlo, hlen⟩
  · exact Or.inr ⟨m, p, heq⟩

theorem parser_safe (fuel : Nat) :
    (∀ tokens i, WFTokens tokens → i < tokens.length →
      4 * (tokens.length - i) + 2 ≤ fuel →
      okOrSyn (parse_primary fuel tokens i) (i + 1) tokens.length) ∧
    (∀ tokens i ft, WFTokens tokens → i + 1 < tokens.length →
      4 * (tokens.length - i) + 1 ≤ fuel →
      okOrSyn (parse_function_call fuel tokens i ft) (i + 3) tokens.length) ∧
    (∀ tokens i name args, WFTokens tokens → i < tokens.length →
      4 * (tokens.length - i) + 3 ≤ fuel →
      okOrSyn (parse_args_loop fuel tokens i name args) (i + 1)
        tokens.length) ∧
    (∀ tokens i, WFTokens tokens → i + 1 < tokens.length →
      4 * (tokens.length - i) + 1 ≤ fuel →
      okOrSyn (parse_parenthesized fuel tokens i) (i + 2) tokens.length) ∧
    (∀ tokens i mp, WFTokens tokens → i < tokens.length →
      4 * (tokens.length - i) + 3 ≤ fuel →
      okOrSyn (parse_binary_expression fuel tokens i mp) (i + 1)
        tokens.length) ∧
    (∀ tokens i mp left, WFTokens tokens → i < tokens.length →
      4 * (tokens.length - i) + 1 ≤ fuel →
      okOrSyn (parse_bin_loop fuel tokens i mp left) i tokens.length) := by
  induction fuel with
  | zero =>
    refine ⟨?_, ?_, ?_, ?_, ?_, ?_⟩
    · intro tokens i hwf hi hfuel; exact absurd hfuel (by omega)
    · intro tokens i ft hwf hi hfuel; exact absurd hfuel (by omega)
    · intro tokens i name args hwf hi hfuel; exact absurd hfuel (by omega)
    · intro tokens i hwf hi hfuel; exact absurd hfuel (by omega)
    · intro tokens i mp hwf hi hfuel; exact absurd hfuel (by omega)
    · intro tokens i mp left hwf hi hfuel; exact absurd hfuel (by omega)
  | succ fuel ih =>
    obtain ⟨ihP, ihF, ihA, ihG, ihE, ihL⟩ := ih
    refine ⟨?_, ?_, ?_, ?_, ?_, ?_⟩
    -- parse_primary
    · intro tokens i hwf hi hfuel
      simp only [parse_primary]
      obtain ⟨token, hg⟩ := getCur_of_lt hi
      simp only [hg]
      split_ifs with h1 h2 h3 h4 h5 h6 h7
      · exact okOrSyn_ok (Nat.le_refl _)
          (step_lt hwf hg (by rw [h1]; decide))
      · exact okOrSyn_ok (Nat.le_refl _)
          (step_lt hwf hg (by rw [h2]; decide))
      · exact okOrSyn_ok (Nat.le_refl _)
          (step_lt hwf hg (by rw [h3]; decide))
      · have hne : token.type ≠ TokenType.EOF := by
          rcases h4 with h | h | h | h <;> rw [h] <;> decide
        have hlt := step_lt hwf hg hne
        have hrec := ihF tokens i token hwf hlt (by omega)
        exact okOrSyn_mono (by omega) hrec
      · have hlt := step_lt hwf hg (by rw [h5]; decide)
        have hrec := ihG tokens i hwf hlt (by omega)
        exact okOrSyn_mono (by omega) hrec
      · have hlt := step_lt hwf hg (by rw [h6]; decide)
        have hrec := ihP tokens (i + 1) hwf hlt (by omega)
        rcases hrec with ⟨n, j, heq, hlo, hlen⟩ | ⟨m, p, heq⟩
        · rw [heq]
          exact okOrSyn_ok (by omega) hlen
        · rw [heq]
          exact okOrSyn_syn
      · have hlt := step_lt hwf hg (by rw [h7]; decide)
        have hrec := ihP tokens (i + 1) hwf hlt (by omega)
        exact okOrSyn_mono (by omega) hrec
      · exact okOrSyn_syn
    -- parse_function_call
    · intro tokens i ft hwf hi1 hfuel
      simp only [parse_function_call]
      obtain ⟨t, hg1⟩ := getCur_of_lt hi1
      simp only [hg1]
      split_ifs with hLP
      · have hi2 : i + 2 < tokens.length :=
          step_lt hwf hg1 (by rw [hLP]; decide)
        obtain ⟨t2, hg2⟩ := getCur_of_lt hi2
        simp only [hg2]
        split_ifs with hRP
        · exact okOrSyn_ok (Nat.le_refl _)
            (step_lt hwf hg2 (by rw [hRP]; decide))
        · have hrec := ihE tokens (i + 2) 0 hwf hi2 (by omega)
          rcases hrec with ⟨arg, j1, heq, hlo, hlen⟩ | ⟨m, p, heq⟩
          · rw [heq]
            have hrec2 := ihA tokens j1 ft.value [arg] hwf hlen (by omega)
            exact okOrSyn_mono (by omega) hrec2
          · rw [heq]
            exact okOrSyn_syn
      · exact okOrSyn_syn
    -- parse_args_loop
    · intro tokens i name args hwf hi hfuel
      simp only [parse_args_loop]
      obtain ⟨t, hg⟩ := getCur_of_lt hi
      simp only [hg]
      split_ifs with hC hR
      · have hlt := step_lt hwf hg (by rw [hC]; decide)
        have hrec := ihE tokens (i + 1) 0 hwf hlt (by omega)
        rcases hrec with ⟨arg, k, heq, hlo, hlen⟩ | ⟨m, p, heq⟩
        · rw [heq]
          have hrec2 := ihA tokens k name (args ++ [arg]) hwf hlen (by omega)
          exact okOrSyn_mono (by omega) hrec2
        · rw [heq]
          exact okOrSyn_syn
      · exact okOrSyn_ok (Nat.le_refl _)
          (step_lt hwf hg (by rw [hR]; decide))
      · exact okOrSyn_syn
    -- parse_parenthesized
    · intro tokens i hwf hi1 hfuel
      simp only [parse_parenthesized]
      have hrec := ihE tokens (i + 1) 0 hwf hi1 (by omega)
      rcases hrec with ⟨e, j, heq, hlo, hlen⟩ | ⟨m, p, heq⟩
      · rw [heq]
        obtain ⟨t, hg⟩ := getCur_of_lt hlen
        simp only [hg]
        split_ifs with hRP
        · exact okOrSyn_ok (by omega)
            (step_lt hwf hg (by rw [hRP]; decide))
        · exact okOrSyn_syn
      · rw [heq]
        exact okOrSyn_syn
    -- parse_binary_expression
    · intro tokens i mp hwf hi hfuel
      simp only [parse_binary_expression]
      have hrec := ihP tokens i hwf hi (by omega)
      rcases hrec with ⟨left, k, heq, hlo, hlen⟩ | ⟨m, p, heq⟩
      · rw [heq]
        have hrec2 := ihL tokens k mp left hwf hlen (by omega)
        exact okOrSyn_mono (by omega) hrec2
      · rw [heq]
        exact okOrSyn_syn
    -- parse_bin_loop
    · intro tokens i mp left hwf hi hfuel
      simp only [parse_bin_loop]
      obtain ⟨t, hg⟩ := getCur_of_lt hi
      simp only [hg]
      cases hpo : precOf t.type with
      | none =>
        simp only [hpo]
        exact okOrSyn_ok (Nat.le_refl _) hi
      | some p =>
        simp only [hpo]
        by_cases hge : mp ≤ p
        · rw [if_pos hge]
          have hlt := step_lt hwf hg (precOf_ne_eof hpo)
          have hrec := ihE tokens (i + 1)
            (if t.type = TokenType.POWER then p - 1 else p + 1) hwf hlt
            (by omega)
          rcases hrec with ⟨right, k, heq, hlo, hlen⟩ | ⟨m, pp, heq⟩
          · rw [heq]
            have hrec2 := ihL tokens k mp
              (Node.binaryOp left t.value right) hwf hlen (by omega)
            exact okOrSyn_mono (by omega) hrec2
          · rw [heq]
            exact okOrSyn_syn
        · rw [if_neg hge]
          exact okOrSyn_ok (Nat.le_refl _) hi

/-- C9: on every token sequence whose final element is the only `EOF`
token, the parser never reads past the end of the sequence (the
current token is never `None`, modelled as: the result is never
`Err.crash`, and the fuel supplied by `parse` never runs out): `parse`
either returns a result or raises a `SyntaxError`. -/
theorem c9_no_crash (tokens : List Token) (hwf : WFTokens tokens) :
    (∃ r, parse tokens = Except.ok r) ∨
    (∃ m p, parse tokens = Except.error (Err.synError m p)) := by
  rw [parse, if_neg (by simpa using hwf.1)]
  have hlen : 0 < tokens.length := List.length_pos.mpr hwf.1
  have hrec := (parser_safe (parseFuel tokens)).2.2.2.2.1 tokens 0 0 hwf hlen
    (by unfold parseFuel; omega)
  rcases hrec with ⟨n, j, heq, hlo, hlenj⟩ | ⟨m, p, heq⟩
  · rw [parse_program, parse_expression]
    simp only [heq]
    obtain ⟨t, hg⟩ := getCur_of_lt hlenj
    simp only [hg]
    by_cases hEOF : t.type = TokenType.EOF
    · rw [if_pos hEOF]
      exact Or.inl ⟨some ⟨n⟩, rfl⟩
    · rw [if_neg hEOF]
      exact Or.inr ⟨_, _, rfl⟩
  · rw [parse_program, parse_expression]
    simp only [heq]
    exact Or.inr ⟨m, p, rfl⟩

/-- C9 witness: the safety theorem at the concrete well-formed token
sequence of the input `2`. -/
theorem c9_no_crash_witness :
    (∃ r, parse [⟨TokenType.INTEGER, "2", 0⟩, ⟨TokenType.EOF, "", 1⟩] =
      Except.ok r) ∨
    (∃ m p, parse [⟨TokenType.INTEGER, "2", 0⟩, ⟨TokenType.EOF, "", 1⟩] =
      Except.error (Err.synError m p)) :=
  c9_no_crash [⟨TokenType.INTEGER, "2", 0⟩, ⟨TokenType.EOF, "", 1⟩]
    (by unfold WFTokens; decide)

/-- C7: whenever the top-level expression has been parsed and the
current token is not `EOF`, `parse` raises a `SyntaxError` carrying
the unexpected token's position instead of returning an AST. -/
theorem c7_trailing_tokens (tokens : List Token) (prog : ProgramNode)
    (j : Nat) (t : Token) (hne : tokens ≠ [])
    (hpp : parse_program (parseFuel tokens) tokens 0 = Except.ok (prog, j))
    (ht : getCur tokens j = some t) (hty : t.type ≠ TokenType.EOF) :
    parse tokens =
      Except.error (Err.synError "Unexpected token" t.position) := by
  rw [parse, if_neg (by simpa using hne)]
  simp only [hpp]
  simp only [ht]
  rw [if_neg hty]

/-- C7 witness: the trailing-token theorem at the token sequence of the
input `2 3` (the expression `2` is parsed, the second `INTEGER` token
remains, and `parse` fails at its position). -/
theorem c7_trailing_tokens_witness :
    parse [⟨TokenType.INTEGER, "2", 0⟩, ⟨TokenType.INTEGER, "3", 2⟩,
      ⟨TokenType.EOF, "", 3⟩] =
      Except.error (Err.synError "Unexpected token" 2) := by
  exact c7_trailing_tokens
    [⟨TokenType.INTEGER, "2", 0⟩, ⟨TokenType.INTEGER, "3", 2⟩,
      ⟨TokenType.EOF, "", 3⟩]
    ⟨Node.number 2⟩ 1 ⟨TokenType.INTEGER, "3", 2⟩
    (by decide) rfl rfl (by decide)
